import Mathlib

/-!
Verification of the payback debt-settlement solver (Rust sources under `src/`).

Shallow embedding conventions used throughout this file:

* `i64` balances and amounts are modelled by `Int`.  Every amount the program
  stores in a solution is an `i64` cast to `f64` (`x as f64`), so amounts are
  modelled by `Int` as well; the cast is exact for the integer ranges the
  claims quantify over, and no claim depends on rounding at `|x| > 2^53`.
* `f64` appears in the sources only in `get_average_vertex_weight`
  (`sum as f64 / len as f64`) and in solution values.  The average is
  modelled as `Option ℚ`: the `0.0 / 0.0 = NaN` case (empty graph) becomes
  `none`, and `NaN != 0` makes `is_solvable` return `false` there, which the
  `none` branch reproduces.  For a nonempty graph the quotient is a finite
  `f64` that equals `0` exactly when the integer sum is `0` (a nonzero `i64`
  casts to an `f64` of magnitude at least 1, and dividing by the positive
  finite length cannot round to zero), so testing the rational quotient
  against `0` agrees with the `f64` test.
* `HashMap<Edge, f64>` is modelled as an association list `EdgeMap` whose
  `insert` overwrites an existing key, mirroring `HashMap::insert` /
  `HashMap::extend`; `len()` is the list length, which matches the map size
  because keys stay unique under this insert.  Iteration order of a Rust
  `HashMap` is unspecified; the list order is a modelling artifact and no
  theorem below depends on it beyond what the sources determine.
* Computations that are not structurally recursive (`greedy_satisfaction`'s
  `while`, `best_partition_rec`, `dp`, and the mutually recursive
  `NamedNode::cmp`/`partial_cmp` pair behind `vertices.iter().max()` in
  `star_expand`) take an explicit fuel argument.  An outer result of `none`
  means "the computation did not return within the given fuel"; divergence of
  the Rust code is expressed as `∀ fuel, run fuel = none`.
-/

namespace Payback

/-- Rust struct `NamedNode` (graph.rs): stable id, display name, signed balance. -/
structure NamedNode where
  id : Nat
  name : String
  weight : Int
deriving DecidableEq, Repr

/-- Rust struct `Edge` (graph.rs): ordered pair of vertex ids.  In every
solution produced by the solvers the vertex `v` pays the amount to the vertex
`u` (see `payerId`/`payeeId` below for the justification). -/
structure Edge where
  u : Nat
  v : Nat
deriving DecidableEq, Repr

/-- Rust struct `Graph` (graph.rs).  The `edges` field of the Rust struct is
materialized at construction but never read by any solver, formatter or
solvability check, so the embedding carries only the vertex list. -/
structure Graph where
  vertices : List NamedNode
deriving DecidableEq, Repr

/-- Solution edge map: model of `HashMap<Edge, f64>` as an association list
with unique keys. -/
abbrev EdgeMap := List (Edge × Int)

/-- `HashMap::insert`: overwrite the value if the key is present, otherwise
add the binding. -/
def emInsert (m : EdgeMap) (k : Edge) (x : Int) : EdgeMap :=
  if m.any (fun p => decide (p.1 = k)) then
    m.map (fun p => if p.1 = k then (k, x) else p)
  else m ++ [(k, x)]

/-- `HashMap::extend`: insert every binding of the second map. -/
def emExtend (m : EdgeMap) (m' : EdgeMap) : EdgeMap :=
  m'.foldl (fun acc p => emInsert acc p.1 p.2) m

/-- Collect an iterator of key-value pairs into a `HashMap`
(`.collect::<HashMap<_, _>>()`). -/
def collectEM (l : List (Edge × Int)) : EdgeMap :=
  l.foldl (fun acc p => emInsert acc p.1 p.2) []

/-- Sum of the vertex weights, `self.vertices.iter().map(|v| v.weight).sum::<i64>()`. -/
def sumWeights (g : Graph) : Int :=
  (g.vertices.map NamedNode.weight).sum

/-- `Graph::get_average_vertex_weight` (graph.rs): `sum as f64 / len as f64`.
On the empty graph the Rust expression is `0.0 / 0.0 = NaN`, modelled as
`none`; otherwise the exact rational quotient (see the header comment for why
this is faithful for the zero test). -/
def get_average_vertex_weight (g : Graph) : Option ℚ :=
  if g.vertices.isEmpty then none
  else some ((sumWeights g : ℚ) / (g.vertices.length : ℚ))

/-- `ProblemInstance::is_solvable` (probleminstance.rs): false iff the average
weight compares unequal to `0`.  The literal test is
`get_average_vertex_weight g = some 0`; it is written here in the
kernel-computable form it provably equals (`is_solvable_avg` below): for the
empty graph the average is NaN and `NaN != 0` holds, and for a nonempty graph
the finite quotient is zero exactly when the integer sum is. -/
def is_solvable (g : Graph) : Bool :=
  !g.vertices.isEmpty && decide (sumWeights g = 0)

/-- `ProblemInstance::optimal_transaction_amount` (probleminstance.rs):
`sum(|weight|) / 2` with `i64` (truncating) division. -/
def optimal_transaction_amount (g : Graph) : Int :=
  (g.vertices.map (fun v => |v.weight|)).sum / 2

/-- `Graph::new` for `From<Vec<i64>>` (graph.rs): names are the decimal
positional indices, ids are assigned densely in order. -/
def mkGraph (weights : List Int) : Graph :=
  ⟨(List.range weights.length).zipWith
      (fun i w => ⟨i, toString i, w⟩) weights⟩

/-- `From<Vec<NamedNode>> for Graph` / `From<Vec<&NamedNode>>` (graph.rs):
wrap a vertex list, ids preserved. -/
def graphFrom (vs : List NamedNode) : Graph := ⟨vs⟩

/-! ## The `Ord` implementation for `NamedNode`

`impl Ord for NamedNode` (graph.rs lines 28-38) defines
`cmp(a, b) = a.partial_cmp(b).unwrap_or(Equal)` while the `PartialOrd`
implementation right below it defines `partial_cmp(a, b) = Some(a.cmp(b))`.
The two methods call each other with unchanged arguments, so neither ever
returns.  The mutual recursion is modelled with fuel: `nodeCmpFuel f a b`
returns `some o` if the Rust call `a.cmp(&b)` would return the ordering `o`
within `f` nested calls, and `none` if the call is still running. -/

/-- Fuel model of `NamedNode::cmp` (graph.rs line 29-31); see the section
comment. -/
def nodeCmpFuel : Nat → NamedNode → NamedNode → Option Ordering
  | 0, _, _ => none
  | f + 1, a, b =>
    match nodePartialCmpFuel f a b with
    | none => none
    | some none => some .eq
    | some (some o) => some o
where
  /-- Fuel model of `NamedNode::partial_cmp` (graph.rs line 34-38):
  `Some(self.cmp(other))`. -/
  nodePartialCmpFuel : Nat → NamedNode → NamedNode → Option (Option Ordering)
  | 0, _, _ => none
  | f + 1, a, b => (nodeCmpFuel f a b).map some

/-- `instance.g.vertices.iter().max()` (approximation.rs line 34), built on
the `Ord` implementation above.  `Iterator::max` is `max_by(Ord::cmp)`: it
returns `None` on an empty iterator and the single element of a singleton
without calling `cmp`; from two elements on it folds with `cmp`, keeping the
accumulator exactly on `Greater`.  Each `cmp` call goes through the fuel
model `nodeCmpFuel`, so the fold's monadic result is `none` — the comparison
is still running — whenever a comparison is actually performed, which
`nodeCmp_aux` below shows is always. -/
def vMaxFuel (fuel : Nat) : List NamedNode → Option (Option NamedNode)
  | [] => some none
  | x :: xs =>
    (xs.foldlM (fun acc y =>
      (nodeCmpFuel fuel acc y).map
        (fun o => if o = Ordering.gt then acc else y)) x).map some

/-! ## StarExpand (approximation.rs `star_expand`) -/

/-- `star_expand` (approximation.rs lines 25-66) with fuel for the node
comparisons of `vertices.iter().max()`.  Outer `none` means the call never
returns (the `Ord` mutual recursion, see `nodeCmpFuel`); `some none` is the
Rust `None`; `some (some m)` is `Some(m)`.  When the hub `v` is obtained
(only possible on graphs with fewer than two vertices), the solution has one
edge per non-hub vertex `u` — `(u.id, hub.id)` with amount `u.weight` when
`u.weight > 0`, else `(hub.id, u.id)` with amount `-u.weight` (which is `0`
for a zero-balance vertex: the source filters only `u != v`, not zero
weights). -/
def star_expand (fuel : Nat) (g : Graph) : Option (Option EdgeMap) :=
  if !is_solvable g then some none
  else
    match vMaxFuel fuel g.vertices with
    | none => none
    | some none => some none
    | some (some v) =>
      some (some (collectEM ((g.vertices.filter (fun u => decide (u ≠ v))).map
        (fun u =>
          if u.weight > 0 then (Edge.mk u.id v.id, u.weight)
          else (Edge.mk v.id u.id, -u.weight)))))

/-! ## GreedySatisfaction (approximation.rs `greedy_satisfaction`) -/

/-- Loop state of `greedy_satisfaction`: the mutable debtor list, creditor
list, running residual `side_capacities` and the solution map. -/
structure GreedyState where
  neg : List NamedNode
  pos : List NamedNode
  side : Int
  sol : EdgeMap
deriving DecidableEq, Repr

/-- `i64::abs`. -/
def iabs (x : Int) : Int := if x < 0 then -x else x

/-- Initial loop state of `greedy_satisfaction` (approximation.rs lines
94-105): partition the vertices by `weight < 0`, seed `side_capacities` with
the first debtor's weight, then replace it by the first creditor's weight if
that exceeds its absolute value. -/
def greedyInitState (g : Graph) : GreedyState :=
  let parts := g.vertices.partition (fun v => v.weight < 0)
  let negV := parts.1
  let posV := parts.2
  let s0 : Int := match negV.head? with | some x => x.weight | none => 0
  let s1 : Int := match posV.head? with
    | some x => if x.weight > iabs s0 then x.weight else s0
    | none => s0
  ⟨negV, posV, s1, []⟩

/-- One iteration of the `while` loop of `greedy_satisfaction`
(approximation.rs lines 106-142); only ever applied when both lists are
nonempty.  The `Less` branch's `else` arm inserts `side_capacities` itself —
a negative value — exactly as the source does. -/
def greedyStep (s : GreedyState) : GreedyState :=
  match s.neg.head?, s.pos.head? with
  | some n, some p =>
    if s.side < 0 then
      if p.weight ≤ -s.side then
        let side' := s.side + p.weight
        ⟨if side' = 0 then s.neg.tail else s.neg, s.pos.tail, side',
          emInsert s.sol (Edge.mk p.id n.id) p.weight⟩
      else
        ⟨s.neg.tail, s.pos, s.side + p.weight,
          emInsert s.sol (Edge.mk p.id n.id) s.side⟩
    else if s.side = 0 then
      ⟨s.neg, s.pos, p.weight, s.sol⟩
    else
      if -n.weight ≤ s.side then
        let side' := s.side + n.weight
        ⟨s.neg.tail, if side' = 0 then s.pos.tail else s.pos, side',
          emInsert s.sol (Edge.mk p.id n.id) (iabs n.weight)⟩
      else
        ⟨s.neg, s.pos.tail, s.side + n.weight,
          emInsert s.sol (Edge.mk p.id n.id) s.side⟩
  | _, _ => s

/-- Fuel-indexed run of the `while !neg.is_empty() && !pos.is_empty()` loop:
`some` of the final state when the loop exits within the fuel, `none`
otherwise. -/
def greedyRun : Nat → GreedyState → Option GreedyState
  | fuel, s =>
    if s.neg.isEmpty || s.pos.isEmpty then some s
    else
      match fuel with
      | 0 => none
      | f + 1 => greedyRun f (greedyStep s)

/-- `greedy_satisfaction` (approximation.rs lines 86-145) with fuel for its
loop.  Outer `none` = the loop did not finish within the fuel; `some none` =
the Rust function returned `None`; `some (some m)` = it returned `Some(m)`. -/
def greedy_satisfaction (fuel : Nat) (g : Graph) : Option (Option EdgeMap) :=
  if !is_solvable g then some none
  else (greedyRun fuel (greedyInitState g)).map (fun st => some st.sol)

/-! ## Payer and payee of a solution edge

The spec's transfer edge is the ordered pair `(payer_id, payee_id)`.  In the
code the paying participant of an `Edge { u, v }` with a positive amount is
`v` and the receiving participant is `u`: `greedy_satisfaction` always
builds `Edge { u: p.id, v: n.id }` with `p` a creditor (positive balance,
must receive) and `n` a debtor (negative balance, must pay), and
`solution_string` prints the edge as `"{v}" to "{u}": amount` for
nonnegative amounts, with the spec's output format being
`"payer" to "payee": amount`. -/

/-- Paying participant of a solution edge (see the section comment). -/
def payerId (e : Edge) : Nat := e.v

/-- Receiving participant of a solution edge (see the section comment). -/
def payeeId (e : Edge) : Nat := e.u

/-- Sum of the amounts a participant receives over a solution. -/
def receivedBy (m : EdgeMap) (i : Nat) : Int :=
  ((m.filter (fun p => decide (payeeId p.1 = i))).map Prod.snd).sum

/-- Sum of the amounts a participant sends over a solution. -/
def sentBy (m : EdgeMap) (i : Nat) : Int :=
  ((m.filter (fun p => decide (payerId p.1 = i))).map Prod.snd).sum

/-- Received minus sent: what a solution changes a participant's position by;
balance conservation demands this equals the participant's balance. -/
def netBalance (m : EdgeMap) (i : Nat) : Int :=
  receivedBy m i - sentBy m i

/-! ## NaivePartition (exact_partitioning.rs)

`iterate_all_partitionings` mutates a `head` list of blocks: for each existing
block it appends the first remaining element to that block and recurses, and
finally it opens a new singleton block and recurses; at `rest = []` the
current `head` is emitted.  The translation below produces the partitionings
in exactly that order, which matters because the stable sort and `find_map`
downstream depend on it. -/

/-- Apply `f` to the `i`-th element of a list (the in-place block update of
`iterate_all_partitionings`). -/
def modifyAt : List α → Nat → (α → α) → List α
  | [], _, _ => []
  | x :: xs, 0, f => f x :: xs
  | x :: xs, i + 1, f => x :: modifyAt xs i f

/-- `iterate_all_partitionings` / `collect_all_partitionigns`
(exact_partitioning.rs lines 63-92), collected into a list in emission
order. -/
def iterate_all_partitionings : List NamedNode → List (List NamedNode) →
    List (List (List NamedNode))
  | [], head => [head]
  | first :: tail, head =>
    ((List.range head.length).flatMap
        (fun i => iterate_all_partitionings tail (modifyAt head i (· ++ [first]))))
      ++ iterate_all_partitionings tail (head ++ [[first]])

/-- `collect_all_partitionigns(items)`. -/
def collect_all_partitionigns (items : List NamedNode) : List (List (List NamedNode)) :=
  iterate_all_partitionings items []

/-- A solver as the exact algorithms consume it: from a graph to an outcome,
where outer `none` means the call does not return (fuel sentinel) and the
inner option is the Rust `Solution`. -/
abbrev SolverFn := Graph → Option (Option EdgeMap)

/-- `star_expand` at a given fuel, as a `SolverFn`. -/
def starSolver (fuel : Nat) : SolverFn := star_expand fuel

/-- `partition_solver` (exact_partitioning.rs lines 35-61): settle the blocks
in order with the approximation, merging edge maps; the first block the
approximation rejects aborts the partitioning with `None`. -/
def partition_solver (approx : SolverFn) : List (List NamedNode) → EdgeMap →
    Option (Option EdgeMap)
  | [], acc => some (some acc)
  | b :: bs, acc =>
    match approx (graphFrom b) with
    | none => none
    | some none => some none
    | some (some m) => partition_solver approx bs (emExtend acc m)

/-- `Iterator::find_map` over the partitionings: the first partitioning the
block solver fully settles wins; if every partitioning is rejected the result
is `None`. -/
def find_mapF (f : List (List NamedNode) → Option (Option EdgeMap)) :
    List (List (List NamedNode)) → Option (Option EdgeMap)
  | [] => some none
  | p :: ps =>
    match f p with
    | none => none
    | some none => find_mapF f ps
    | some (some m) => some (some m)

/-- Sort key of `partitionings.sort_by_key(|a| Reverse(a.len()))`: descending
block count.  Rust's sort is stable and `List.insertionSort` with this
reflexive relation is stable too, so both produce the unique stably sorted
sequence. -/
def moreBlocks (a b : List (List NamedNode)) : Prop := b.length ≤ a.length

instance : DecidableRel moreBlocks := fun _ _ => Nat.decLe _ _

/-- `naive_all_partitioning` (exact_partitioning.rs lines 23-33): enumerate
every set partition, sort by descending block count, return the first one the
approximation fully settles. -/
def naive_all_partitioning (approx : SolverFn) (g : Graph) : Option (Option EdgeMap) :=
  find_mapF (fun p => partition_solver approx p [])
    (List.insertionSort moreBlocks (collect_all_partitionigns g.vertices))

/-! ## BranchingPartition (tree_bases.rs) -/

/-- `itertools` `combinations` of size `k` in the order the crate yields
them: index-lexicographic. -/
def combosIT : Nat → List α → List (List α)
  | 0, _ => [[]]
  | _ + 1, [] => []
  | k + 1, x :: xs => (combosIT k xs).map (x :: ·) ++ combosIT (k + 1) xs

/-- `itertools` `powerset` order: subsets by ascending size, within a size in
index-lexicographic order. -/
def powersetIT (l : List α) : List (List α) :=
  (List.range (l.length + 1)).flatMap (fun k => combosIT k l)

/-- `zero_sum_subsets` (tree_bases.rs lines 118-125): subsets whose weights
sum to zero and that contain no zero-weight vertex.  Note the empty subset
always qualifies and a singleton never does. -/
def zero_sum_subsets (vertices : List NamedNode) : List (List NamedNode) :=
  (powersetIT vertices).filter
    (fun s => decide ((s.map NamedNode.weight).sum = 0) &&
      s.all (fun v => decide (v.weight ≠ 0)))

/-- The stateful `filter` pass of `best_partition_rec` (tree_bases.rs lines
65-92): walk the zero-sum subsets in order, committing cancelling pairs whose
endpoints are both still free, and keep the subsets of size ≥ 3 for
branching.  Returns `(best_branching, remove_verts, filtered_subsets)`. -/
def branchFilter (subsets : List (List NamedNode)) :
    List (List NamedNode) × List NamedNode × List (List NamedNode) :=
  subsets.foldl
    (fun acc s =>
      let best := acc.1
      let remove := acc.2.1
      let filtered := acc.2.2
      match s with
      | [] => (best, remove, filtered)
      | [x] => (best, remove ++ [x], filtered)
      | [x, y] =>
        if ¬ remove.contains x ∧ ¬ remove.contains y then
          (best ++ [[x, y]], remove ++ [x, y], filtered)
        else (best, remove, filtered)
      | _ => (best, remove, filtered ++ [s]))
    ([], [], [])

/-- `best_partition_rec` (tree_bases.rs lines 57-114) with fuel for the
recursion (the real recursion strictly shrinks the vertex list, so any fuel
of at least `vertices.length + 1` reproduces it; `0` is the unreached
sentinel). -/
def best_partition_rec : Nat → List NamedNode → List (List NamedNode)
  | _, [] => []
  | 0, _ => []
  | f + 1, vertices =>
    let bf := branchFilter (zero_sum_subsets vertices)
    let bestBranching := bf.1
    let removeVerts := bf.2.1
    let filtered := bf.2.2
    if removeVerts.length = vertices.length then bestBranching
    else
      bestBranching ++ filtered.foldl
        (fun acc s =>
          let verts := vertices.filter
            (fun v => !s.contains v && !removeVerts.contains v)
          let result := best_partition_rec f verts ++ [s]
          if acc.length ≤ result.length then result else acc)
        []

/-- Settle the blocks an exact solver selected (tree_bases.rs lines 44-54 and
dynamic_program.rs lines 74-84): the approximation must succeed on every
block, anything else hits `unreachable!` — modelled, like fuel exhaustion, as
the outer `none` of "the call does not return normally". -/
def settleBlocks (approx : SolverFn) : List (List NamedNode) → EdgeMap →
    Option (Option EdgeMap)
  | [], acc => some (some acc)
  | b :: bs, acc =>
    match approx (graphFrom b) with
    | some (some m) => settleBlocks approx bs (emExtend acc m)
    | _ => none

/-- `best_partition` (tree_bases.rs lines 24-55): `None` if unsolvable, else
settle the partition chosen by `best_partition_rec`. -/
def best_partition (fuel : Nat) (approx : SolverFn) (g : Graph) :
    Option (Option EdgeMap) :=
  if !is_solvable g then some none
  else settleBlocks approx (best_partition_rec fuel g.vertices) []

/-! ## PatcasDP (dynamic_program.rs)

Bitmasks (`u128`) are modelled as `Nat`.  The memo table is not carried: the
`dp` recursion is deterministic, so a table hit returns exactly the value a
recomputation produces, and the `(value, chosen_split)` entry the
reconstruction reads for a reachable key equals the pair `dpF` computes for
it. -/

/-- `one_indices` (dynamic_program.rs lines 191-203): positions of set bits
in ascending order.  The Rust loop shifts until the number is zero; the bound
`num` itself is ample since `2^i > i`. -/
def one_indices (num : Nat) : List Nat :=
  (List.range num).filter (fun i => num.testBit i)

/-- `expand_number` (dynamic_program.rs lines 206-213). -/
def expand_number (indices : List Nat) : Nat :=
  indices.foldl (fun acc i => acc + 2 ^ i) 0

/-- `count_ones`. -/
def popCount (num : Nat) : Nat := (one_indices num).length

/-- `number_weight` (dynamic_program.rs lines 165-179): sum of the weights at
the set-bit positions. -/
def number_weight (num : Nat) (weights : List Int) : Int :=
  ((one_indices num).map (fun i => weights.getD i 0)).sum

/-- `number_and_subset` (dynamic_program.rs lines 182-188): the nonzero
submasks, in `powerset`-of-indices order. -/
def number_and_subset (num : Nat) : List Nat :=
  ((powersetIT (one_indices num)).map expand_number).filter (fun n => decide (n ≠ 0))

/-- First-minimal `min_by` on the first component (Rust `Iterator::min_by`
keeps the first of equally minimal elements). -/
def minByFst : List (Nat × Option (Nat × Nat)) → Option (Nat × Option (Nat × Nat))
  | [] => none
  | x :: xs => some (xs.foldl (fun acc y => if y.1 < acc.1 then y else acc) x)

/-- `dp` (dynamic_program.rs lines 88-135) with fuel: returns the table entry
`(value, chosen_split)` for `(i, j)` — the minimal transfer count together
with `some (a, b)` when the best choice splits off the block `(a, b)`, and
`none` as split when `(i, j)` is kept atomic. -/
def dpF : Nat → Nat → Nat → List Int → Option (Nat × Option (Nat × Nat))
  | _, 0, 0, _ => some (0, none)
  | fuel, i, j, weights =>
    if number_weight i weights ≠ -number_weight j weights then none
    else
      match fuel with
      | 0 => none
      | f + 1 =>
        minByFst (((number_and_subset i).flatMap
            (fun a => (number_and_subset j).map (fun b => (a, b)))).filterMap
          (fun ab =>
            (dpF f (i ^^^ ab.1) (j ^^^ ab.2) weights).map
              (fun x =>
                (x.1 + popCount ab.1 + popCount ab.2 - 1,
                  if i ≠ ab.1 ∧ j ≠ ab.2 then some (ab.1, ab.2) else none))))

/-- `table_extract_partitioning` / `_table_extract_rec` (dynamic_program.rs
lines 139-161), reading table entries through `dpF`; a missing entry
contributes nothing, as in the source's wildcard arm. -/
def table_extract : Nat → Nat → Nat → List Int → List Nat
  | _, 0, _, _ => []
  | _, _, 0, _ => []
  | 0, _, _, _ => []
  | f + 1, i, j, weights =>
    match dpF (f + 1) i j weights with
    | some (_, none) => [i + j]
    | some (_, some (a, b)) =>
      table_extract f a b weights ++ table_extract f (i ^^^ a) (j ^^^ b) weights
    | none => []

/-- `patcas_dp` (dynamic_program.rs lines 29-85): filter out zero-weight
vertices, split the indices by sign into two bitmask sides, run the dynamic
program, reconstruct the chosen blocks and settle each with the
approximation. -/
def patcas_dp (fuel : Nat) (approx : SolverFn) (g : Graph) :
    Option (Option EdgeMap) :=
  if !is_solvable g then some none
  else
    let nodes := g.vertices.filter (fun v => decide (v.weight ≠ 0))
    let weights := nodes.map NamedNode.weight
    let leftIdx := (List.range nodes.length).filter
      (fun i => decide (0 ≤ (weights.getD i 0)))
    let rightIdx := (List.range nodes.length).filter
      (fun i => decide (¬ 0 ≤ (weights.getD i 0)))
    let nLeft := expand_number leftIdx
    let nRight := expand_number rightIdx
    let blocks := (table_extract fuel nLeft nRight weights).map
      (fun mask => (one_indices mask).filterMap (fun i => nodes.get? i))
    settleBlocks approx blocks []

/-! ## The dispatcher (probleminstance.rs `solve_with`) -/

/-- The enum `SolvingMethods` (probleminstance.rs lines 18-41). -/
inductive SolvingMethods
  | ApproxStarExpand
  | ApproxGreedySatisfaction
  | PartitioningStarExpand
  | PartitioningGreedySatisfaction
  | BranchingPartitionStarExpand
  | BranchingPartitionGreedySatisfaction
  | DPStarExpand
  | DPGreedySatisfaction
deriving DecidableEq, Repr

/-- `ProblemInstance::solve_with` (probleminstance.rs lines 73-88).  The one
fuel parameter bounds every loop of the chosen method. -/
def solve_with (fuel : Nat) (g : Graph) : SolvingMethods → Option (Option EdgeMap)
  | .ApproxStarExpand => star_expand fuel g
  | .ApproxGreedySatisfaction => greedy_satisfaction fuel g
  | .PartitioningStarExpand => naive_all_partitioning (starSolver fuel) g
  | .PartitioningGreedySatisfaction =>
    naive_all_partitioning (greedy_satisfaction fuel) g
  | .BranchingPartitionStarExpand => best_partition fuel (starSolver fuel) g
  | .BranchingPartitionGreedySatisfaction =>
    best_partition fuel (greedy_satisfaction fuel) g
  | .DPStarExpand => patcas_dp fuel (starSolver fuel) g
  | .DPGreedySatisfaction => patcas_dp fuel (greedy_satisfaction fuel) g

/-! ## Output rendering (probleminstance.rs `solution_string`) -/

/-- Rust `Debug` formatting of a `String` (`"{:?}"`): the text within double
quotes, with quotes and backslashes escaped.  The sources never produce the
rarer control-character escapes for the names the claims touch. -/
def rustDebugStr (s : String) : String :=
  "\"" ++ String.join (s.data.map (fun c =>
    if c = '"' then "\\\"" else if c = '\\' then "\\\\" else String.singleton c)) ++ "\""

/-- Rust `Debug` formatting of an integral, in-range `f64` amount
(`3.0_f64` prints as `3.0`). -/
def floatRepr (x : Int) : String := toString x ++ ".0"

/-- `Graph::get_node_name_or` (graph.rs lines 204-213): the name of the first
vertex with the id, or the fallback. -/
def get_node_name_or (g : Graph) (i : Nat) (fallback : String) : String :=
  (((g.vertices.find? (fun v => decide (v.id = i))).map NamedNode.name)).getD fallback

/-- The line terminator (`LINE_ENDING`, non-Windows build). -/
def lineEnding : String := "\n"

/-- `ProblemInstance::solution_string` (probleminstance.rs lines 94-112):
`Err` on `None`; otherwise one line per edge — `"{v}" to "{u}": w` for
`w >= 0`, and `"{u}" to "{v}": -w` for negative `w`. -/
def solution_string (g : Graph) (sol : Option EdgeMap) : Except String String :=
  match sol with
  | none => .error "No result was found."
  | some m =>
    .ok (String.join (m.map (fun p =>
      let uName := get_node_name_or g p.1.u (toString p.1.u)
      let vName := get_node_name_or g p.1.v (toString p.1.v)
      (if p.2 ≥ 0 then
        rustDebugStr vName ++ " to " ++ rustDebugStr uName ++ ": " ++ floatRepr p.2
      else
        rustDebugStr uName ++ " to " ++ rustDebugStr vName ++ ": " ++ floatRepr (-p.2))
        ++ lineEnding)))

/-! ## Concrete instances used by the theorems -/

/-- The empty graph. -/
def emptyGraph : Graph := mkGraph []

/-- `[3, -4, 2, -1]`: zero-sum; drives `greedy_satisfaction` into the `Less`
branch's `else` arm, which records a negative amount. -/
def gNegAmount : Graph := mkGraph [3, -4, 2, -1]

/-- `[-1, 0, 1]`: zero-sum with a zero-balance participant;
`greedy_satisfaction` terminates here but emits a zero-amount edge when the
zero-weight creditor reaches the head of the creditor list inside the `Less`
branch. -/
def gZeroGreedy : Graph := mkGraph [-1, 0, 1]

/-- `[-1, 1, 0, -2, 2]`: zero-sum; after one loop iteration
`greedy_satisfaction` reaches a state with `side_capacities = 0` and a
zero-weight creditor at the head, and the `Equal` arm then repeats that state
forever. -/
def gStuck : Graph := mkGraph [-1, 1, 0, -2, 2]

/-- `[-1, 1, 0, -2, 2, 1]`: balances sum to `1`, so no solver may emit a
solution; naive partitioning with `greedy_satisfaction` nevertheless reaches
the partitioning `[[-1,1,0,-2,2],[1]]` whose first block makes the greedy
loop run forever. -/
def gUnsolvable : Graph := mkGraph [-1, 1, 0, -2, 2, 1]

/-- The first block of the diverging partitioning inside `gUnsolvable`; its
vertices coincide with `gStuck`'s. -/
def stuckBlock : List NamedNode := gStuck.vertices

/-- The diverging partitioning of `gUnsolvable`'s vertices. -/
def badPartitioning : List (List NamedNode) :=
  [stuckBlock, [⟨5, "5", 1⟩]]

/-- `[2, -1, -1, -2, 2]`: zero-sum; `best_partition` commits the cancelling
pair `{2, -2}` and then branches on the full five-vertex zero-sum subset that
overlaps it, so (settling with `greedy_satisfaction`) its solution has 4
edges while `naive_all_partitioning` and `patcas_dp` settle a two-block
partition with 3 edges. -/
def gOverlap : Graph := mkGraph [2, -1, -1, -2, 2]

/-- A partitioning of `gUnsolvable`'s vertices whose first block is the
solvable two-vertex block `{-1, 1}`: settling it with `star_expand` calls
`vertices.iter().max()` on two nodes, which never returns. -/
def badStarPartitioning : List (List NamedNode) :=
  [[⟨0, "0", -1⟩, ⟨1, "1", 1⟩], [⟨2, "2", 0⟩], [⟨3, "3", -2⟩], [⟨4, "4", 2⟩],
    [⟨5, "5", 1⟩]]

/-- `[-1, 2, 3, -4]`: the solvable graph of the repository's own
`test_star_expand` / `test_greedy_satisfaction`, used as witness input. -/
def gTest : Graph := mkGraph [-1, 2, 3, -4]

/-- The loop state `greedy_satisfaction` reaches on `gStuck` after one
iteration: `side_capacities = 0` with the zero-weight creditor at the head of
the creditor list.  The `Equal` arm maps this state to itself. -/
def stuckState : GreedyState :=
  ⟨[⟨3, "3", -2⟩], [⟨2, "2", 0⟩, ⟨4, "4", 2⟩], 0, [(Edge.mk 1 0, 1)]⟩

/-! # Theorems

Helper lemmas come first, then one theorem per claim (with counterexamples
and witnesses where the claim's status requires them). -/

/-- The computable form of `is_solvable` equals the literal source test
`get_average_vertex_weight != 0` (with `NaN != 0` on the empty graph). -/
theorem is_solvable_avg (g : Graph) :
    is_solvable g = decide (get_average_vertex_weight g = some 0) := by
  rcases hv : g.vertices with _ | ⟨x, xs⟩
  · simp [is_solvable, get_average_vertex_weight, hv]
  · have hie : g.vertices.isEmpty = false := by rw [hv]; rfl
    have hne : (g.vertices.length : ℚ) ≠ 0 := by
      refine Nat.cast_ne_zero.mpr ?_
      rw [hv]; simp
    rw [is_solvable, get_average_vertex_weight, hie]
    simp only [Bool.not_false, Bool.true_and, Bool.false_eq_true, if_false]
    rw [Bool.eq_iff_iff]
    simp only [decide_eq_true_eq, Option.some.injEq]
    rw [div_eq_zero_iff]
    constructor
    · intro h; left; exact_mod_cast h
    · rintro (h | h)
      · exact_mod_cast h
      · exact absurd h hne

/-- Characterization of `is_solvable`: true exactly on nonempty graphs with
zero balance sum. -/
theorem is_solvable_iff (g : Graph) :
    is_solvable g = true ↔ g.vertices ≠ [] ∧ sumWeights g = 0 := by
  rw [is_solvable]; simp [List.isEmpty_iff]

/-- The mutual recursion of `NamedNode::cmp` and `NamedNode::partial_cmp`
makes no progress at any fuel. -/
theorem nodeCmp_aux (f : Nat) : ∀ a b, nodeCmpFuel f a b = none ∧
    nodeCmpFuel.nodePartialCmpFuel f a b = none := by
  induction f with
  | zero => intro a b; exact ⟨rfl, rfl⟩
  | succ f ih =>
    intro a b
    constructor
    · have h : nodeCmpFuel (f + 1) a b =
          match nodeCmpFuel.nodePartialCmpFuel f a b with
          | none => none
          | some none => some .eq
          | some (some o) => some o := rfl
      rw [h, (ih a b).2]
    · have h : nodeCmpFuel.nodePartialCmpFuel (f + 1) a b =
          (nodeCmpFuel f a b).map some := rfl
      rw [h, (ih a b).1]; rfl

/-- With at least two vertices, `vertices.iter().max()` performs a node
comparison, and the comparison never returns. -/
theorem vMaxFuel_two (f : Nat) (x y : NamedNode) (rest : List NamedNode) :
    vMaxFuel f (x :: y :: rest) = none := by
  rw [vMaxFuel, List.foldlM_cons, (nodeCmp_aux f x y).1]
  rfl

/-- On every solvable graph with at least two participants, `star_expand`
never returns: its hub selection hangs in the `Ord` recursion. -/
theorem star_expand_diverges (f : Nat) (g : Graph)
    (h2 : 2 ≤ g.vertices.length) (hs : is_solvable g = true) :
    star_expand f g = none := by
  rcases hv : g.vertices with _ | ⟨x, _ | ⟨y, rest⟩⟩
  · rw [hv] at h2; simp at h2
  · rw [hv] at h2; simp at h2
  · rw [star_expand, hs, hv, vMaxFuel_two]
    rfl

/-- On a block with nonzero weight sum, `star_expand` returns `None`
immediately (its solvability gate fires before any comparison). -/
theorem star_some_none (f : Nat) (b : List NamedNode)
    (h : (b.map NamedNode.weight).sum ≠ 0) :
    star_expand f (graphFrom b) = some none := by
  have hsf : is_solvable (graphFrom b) = false := by
    rw [← Bool.not_eq_true]
    intro hc
    exact h ((is_solvable_iff _).mp hc).2
  rw [star_expand, hsf]; rfl

/-- The `Equal` arm of the greedy loop maps `stuckState` to itself, so the
loop never finishes from it. -/
theorem greedyRun_stuckState (f : Nat) : greedyRun f stuckState = none := by
  induction f with
  | zero => rfl
  | succ f ih =>
    have h : greedyRun (f + 1) stuckState = greedyRun f (greedyStep stuckState) := rfl
    rw [h, show greedyStep stuckState = stuckState from rfl]; exact ih

/-- On `gStuck`, `greedy_satisfaction` reaches `stuckState` after one
iteration and then runs forever. -/
theorem greedy_gStuck_none (f : Nat) : greedy_satisfaction f gStuck = none := by
  cases f with
  | zero => rfl
  | succ f =>
    have h : greedy_satisfaction (f + 1) gStuck =
        (greedyRun f stuckState).map (fun st => some st.sol) := rfl
    rw [h, greedyRun_stuckState]; rfl

/-- On a block with nonzero weight sum, `greedy_satisfaction` returns `None`
immediately (its solvability gate fires before the loop). -/
theorem greedy_some_none (f : Nat) (b : List NamedNode)
    (h : (b.map NamedNode.weight).sum ≠ 0) :
    greedy_satisfaction f (graphFrom b) = some none := by
  have hs : is_solvable (graphFrom b) = false := by
    rw [← Bool.not_eq_true]
    intro hc
    exact h ((is_solvable_iff _).mp hc).2
  rw [greedy_satisfaction, hs]; rfl

/-- A partitioning containing a block with nonzero weight sum can never be
fully settled by `partition_solver`, whatever the approximation, as long as
the approximation rejects non-zero-sum blocks (both approximations gate on
`is_solvable` before doing anything else). -/
theorem partition_solver_no_success (approx : SolverFn)
    (hgate : ∀ b : List NamedNode, (b.map NamedNode.weight).sum ≠ 0 →
      approx (graphFrom b) = some none) :
    ∀ (blocks : List (List NamedNode)) (acc : EdgeMap),
      (∃ b ∈ blocks, (b.map NamedNode.weight).sum ≠ 0) →
      ∀ m, partition_solver approx blocks acc ≠ some (some m) := by
  intro blocks
  induction blocks with
  | nil => rintro acc ⟨b, hb, _⟩ m _; exact absurd hb (List.not_mem_nil b)
  | cons b bs ih =>
    rintro acc ⟨c, hc, hcs⟩ m hm
    rw [partition_solver] at hm
    rcases hb : approx (graphFrom b) with _ | mb
    · rw [hb] at hm; exact Option.noConfusion hm
    · rcases mb with _ | mb'
      · rw [hb] at hm
        simp at hm
      · rw [hb] at hm
        rcases List.mem_cons.mp hc with rfl | hc'
        · rw [hgate c hcs] at hb
          exact Option.noConfusion (Option.some.inj hb)
        · exact ih (emExtend acc mb') ⟨c, hc', hcs⟩ m hm

/-- If some partitioning in the list makes the block solver hang, and no
earlier one can be fully settled, `find_map` never returns. -/
theorem find_mapF_eq_none (f : List (List NamedNode) → Option (Option EdgeMap)) :
    ∀ (l : List (List (List NamedNode))) (bad : List (List NamedNode)),
      bad ∈ l → (∀ p ∈ l, ∀ m, f p ≠ some (some m)) → f bad = none →
      find_mapF f l = none := by
  intro l
  induction l with
  | nil => intro bad h; exact absurd h (List.not_mem_nil bad)
  | cons p ps ih =>
    intro bad hmem hno hbad
    rcases hp : f p with _ | op
    · rw [find_mapF, hp]
    · rcases op with _ | m
      · rw [find_mapF, hp]
        rcases List.mem_cons.mp hmem with rfl | hmem'
        · rw [hp] at hbad; exact Option.noConfusion hbad
        · exact ih bad hmem' (fun q hq => hno q (List.mem_cons_of_mem _ hq)) hbad
      · exact absurd hp (hno p (List.mem_cons_self _ _) m)

/-- On `badPartitioning`, `partition_solver` with `greedy_satisfaction` hangs
in its first block, whose vertices are exactly `gStuck`'s. -/
theorem partition_solver_bad_none (f : Nat) :
    partition_solver (greedy_satisfaction f) badPartitioning [] = none := by
  show partition_solver (greedy_satisfaction f)
    (stuckBlock :: [[(⟨5, "5", 1⟩ : NamedNode)]]) [] = none
  rw [partition_solver]
  have he : greedy_satisfaction f (graphFrom stuckBlock) = none := greedy_gStuck_none f
  rw [he]

/-- On `badStarPartitioning`, `partition_solver` with `star_expand` hangs in
its first block: the solvable two-vertex block triggers a node comparison. -/
theorem partition_solver_badStar_none (f : Nat) :
    partition_solver (star_expand f) badStarPartitioning [] = none := by
  show partition_solver (star_expand f)
    ([(⟨0, "0", -1⟩ : NamedNode), ⟨1, "1", 1⟩] ::
      [[(⟨2, "2", 0⟩ : NamedNode)], [⟨3, "3", -2⟩], [⟨4, "4", 2⟩], [⟨5, "5", 1⟩]]) [] = none
  rw [partition_solver]
  have hd : star_expand f (graphFrom [⟨0, "0", -1⟩, ⟨1, "1", 1⟩]) = none :=
    star_expand_diverges f _ (by decide) (by decide)
  rw [hd]

set_option maxRecDepth 10000 in
/-- Every set partitioning of `gUnsolvable`'s vertices (balance sum 1) has a
block with nonzero weight sum. -/
theorem gUnsolvable_parts_nonzero :
    ∀ p ∈ collect_all_partitionigns gUnsolvable.vertices,
      ∃ b ∈ p, (b.map NamedNode.weight).sum ≠ 0 := by
  decide

/-- C1: the claim "every solution of any solving method satisfies balance
conservation" fails on the code.  On the solvable graph `[3, -4, 2, -1]`,
`greedy_satisfaction` reaches the `Less` branch's `else` arm and records the
edge `(2, 1)` with the negative amount `-1` (the residual itself instead of
its negation), after which participant `1` (balance `-4`) has
received − sent = `-2`. -/
theorem c1_greedy_breaks_conservation :
    is_solvable gNegAmount = true ∧
    greedy_satisfaction 10 gNegAmount =
      some (some [(Edge.mk 0 1, 3), (Edge.mk 2 1, -1), (Edge.mk 2 3, 1)]) ∧
    netBalance [(Edge.mk 0 1, 3), (Edge.mk 2 1, -1), (Edge.mk 2 3, 1)] 1 = -2 ∧
    ((gNegAmount.vertices.map NamedNode.weight).getD 1 0) = -4 := by
  refine ⟨rfl, rfl, by decide, by decide⟩

/-- C2: the claim "every solution returned by any solving method maps each
edge to a strictly positive amount" fails on the code.  On the solvable graph
`[-1, 0, 1]`, `greedy_satisfaction` emits the zero-amount edge `(1, 0)` for
the zero-balance participant (the `Less` arm inserts `p.weight` even when it
is `0`), and on the solvable graph `[3, -4, 2, -1]` it emits the negative
amount `-1`; neither returned solution is strictly positive. -/
theorem c2_greedy_nonpositive_amounts :
    is_solvable gZeroGreedy = true ∧
    greedy_satisfaction 10 gZeroGreedy =
      some (some [(Edge.mk 1 0, 0), (Edge.mk 2 0, 1)]) ∧
    ¬ (∀ p ∈ [(Edge.mk 1 0, (0 : Int)), (Edge.mk 2 0, 1)], 0 < p.2) ∧
    greedy_satisfaction 10 gNegAmount =
      some (some [(Edge.mk 0 1, 3), (Edge.mk 2 1, -1), (Edge.mk 2 3, 1)]) ∧
    ¬ (∀ p ∈ [(Edge.mk 0 1, (3 : Int)), (Edge.mk 2 1, -1), (Edge.mk 2 3, 1)], 0 < p.2) := by
  refine ⟨rfl, rfl, by decide, rfl, by decide⟩

/-- C3: the claim that `star_expand` picks the greatest-balance participant
as hub fails on the code: `NamedNode::cmp` calls `partial_cmp`, which calls
`cmp` back with unchanged arguments, so the comparison `vertices.iter().max()`
relies on never returns — no amount of fuel produces an ordering for any two
nodes. -/
theorem c3_node_cmp_never_returns :
    ∀ (f : Nat) (a b : NamedNode), nodeCmpFuel f a b = none :=
  fun f a b => (nodeCmp_aux f a b).1

/-- C4: the claim that `greedy_satisfaction` terminates on every solvable
input with both lists empty fails on the code: on the solvable graph
`[-1, 1, 0, -2, 2]` the loop reaches `side_capacities = 0` with the
zero-weight creditor at the head, and the `Equal` arm then repeats the same
state forever, so no fuel suffices. -/
theorem c4_greedy_diverges_on_solvable :
    is_solvable gStuck = true ∧ ∀ f, greedy_satisfaction f gStuck = none :=
  ⟨rfl, greedy_gStuck_none⟩

set_option maxRecDepth 10000 in
/-- C5: the claim that every solver returns `None` on every non-zero-sum
input fails on the code: on `[-1, 1, 0, -2, 2, 1]` (balance sum `1`), six of
the eight methods do return `None`, but both naive-partitioning methods hang
before exhausting their search — `PartitioningGreedySatisfaction` in the
greedy loop of the zero-sum block `[-1,1,0,-2,2]`, and
`PartitioningStarExpand` in the `Ord` recursion of `max()` on the solvable
two-vertex block `[-1,1]`. -/
theorem c5_unsolvable_input_hangs_naive_greedy (f : Nat) :
    sumWeights gUnsolvable = 1 ∧
    solve_with f gUnsolvable .PartitioningGreedySatisfaction = none ∧
    solve_with f gUnsolvable .PartitioningStarExpand = none ∧
    solve_with f gUnsolvable .ApproxStarExpand = some none ∧
    solve_with f gUnsolvable .ApproxGreedySatisfaction = some none ∧
    solve_with f gUnsolvable .BranchingPartitionStarExpand = some none ∧
    solve_with f gUnsolvable .BranchingPartitionGreedySatisfaction = some none ∧
    solve_with f gUnsolvable .DPStarExpand = some none ∧
    solve_with f gUnsolvable .DPGreedySatisfaction = some none := by
  refine ⟨by decide, ?_, ?_, rfl, rfl, rfl, rfl, rfl, rfl⟩
  · show naive_all_partitioning (greedy_satisfaction f) gUnsolvable = none
    rw [naive_all_partitioning]
    refine find_mapF_eq_none _ _ badPartitioning ?_ ?_ ?_
    · rw [List.mem_insertionSort]
      decide
    · intro p hp m
      refine partition_solver_no_success (greedy_satisfaction f)
        (greedy_some_none f) p [] ?_ m
      exact gUnsolvable_parts_nonzero p ((List.mem_insertionSort _).mp hp)
    · exact partition_solver_bad_none f
  · show naive_all_partitioning (star_expand f) gUnsolvable = none
    rw [naive_all_partitioning]
    refine find_mapF_eq_none _ _ badStarPartitioning ?_ ?_ ?_
    · rw [List.mem_insertionSort]
      decide
    · intro p hp m
      refine partition_solver_no_success (star_expand f)
        (star_some_none f) p [] ?_ m
      exact gUnsolvable_parts_nonzero p ((List.mem_insertionSort _).mp hp)
    · exact partition_solver_badStar_none f

/-- C6 counterexample: the claim "for every graph, including the graph with
zero participants, `is_solvable` is true iff the balance sum is zero" fails
at the empty graph, whose balance sum is zero while `is_solvable` is false
(the `f64` average is `0.0 / 0.0 = NaN`, and `NaN != 0`). -/
theorem c6_empty_graph_counterexample :
    ¬ (is_solvable emptyGraph = true ↔ sumWeights emptyGraph = 0) := by
  decide

/-- C6 (amended): `is_solvable` equals the literal source test against the
`f64` average, and it is true iff the graph is nonempty and its balance sum
is zero; on the empty graph it is false despite the zero sum. -/
theorem c6_is_solvable_characterization (g : Graph) :
    is_solvable g = decide (get_average_vertex_weight g = some 0) ∧
    (is_solvable g = true ↔ g.vertices ≠ [] ∧ sumWeights g = 0) :=
  ⟨is_solvable_avg g, is_solvable_iff g⟩

/-- C7: the claim that `star_expand` emits exactly
`(count of nonzero participants) − 1` edges on every zero-sum input fails on
the code: on every solvable graph with at least two participants,
`star_expand` emits nothing at all — hub selection calls
`vertices.iter().max()`, whose `Ord` comparison never returns — and in
particular it never produces the 3 edges the repository's own
`test_star_expand` asserts for `[-1, 2, 3, -4]`. -/
theorem c7_star_expand_never_returns (f : Nat) (g : Graph)
    (h2 : 2 ≤ g.vertices.length) (hs : is_solvable g = true) :
    star_expand f g = none :=
  star_expand_diverges f g h2 hs

/-- C7 witness: the divergence theorem at the repository's own test graph
`[-1, 2, 3, -4]`, whose test expects a 3-edge star. -/
theorem c7_star_expand_never_returns_witness :
    star_expand 7 gTest = none :=
  c7_star_expand_never_returns 7 gTest (by decide) (by decide)

set_option maxRecDepth 10000 in
/-- C8: the claim that `NaivePartition`, `BranchingPartition` and `PatcasDP`
return equally many edges fails on the code.  On the zero-sum graph
`[2, -1, -1, -2, 2]` with `GreedySatisfaction`, the naive enumeration and the
DP settle a two-block partition with 3 edges, but `best_partition` first
commits the cancelling pair `{2, -2}` and then branches on the full
five-vertex zero-sum subset that overlaps it, returning 4 edges (a solution
that double-covers two participants).  With `StarExpand` the three solvers do
not return at all on this input (see the C7 theorem). -/
theorem c8_naive_and_branching_disagree :
    (naive_all_partitioning (greedy_satisfaction 10) gOverlap).map
      (Option.map List.length) = some (some 3) ∧
    (best_partition 10 (greedy_satisfaction 10) gOverlap).map
      (Option.map List.length) = some (some 4) ∧
    (patcas_dp 100 (greedy_satisfaction 10) gOverlap).map
      (Option.map List.length) = some (some 3) := by
  refine ⟨by decide, by decide, by decide⟩

/-- C9: `solution_string` returns the error `"No result was found."` exactly
when the solution is `None`; on a solution whose amounts are all nonnegative
it returns one line per transfer, printing the payer's (quoted) name first
and the payee's second, then the amount. -/
theorem c9_solution_string_payer_first (g : Graph) (m : EdgeMap) :
    solution_string g none = .error "No result was found." ∧
    (solution_string g (some m)).isOk = true ∧
    ((∀ p ∈ m, 0 ≤ p.2) →
      solution_string g (some m) = .ok (String.join (m.map (fun p =>
        rustDebugStr (get_node_name_or g (payerId p.1) (toString (payerId p.1))) ++ " to " ++
        rustDebugStr (get_node_name_or g (payeeId p.1) (toString (payeeId p.1))) ++ ": " ++
        floatRepr p.2 ++ lineEnding)))) := by
  refine ⟨rfl, rfl, ?_⟩
  intro hpos
  rw [solution_string]
  congr 1
  congr 1
  apply List.map_congr_left
  intro p hp
  have h := hpos p hp
  simp only [ge_iff_le]
  rw [if_pos h]
  rfl

/-- C9 witness: on the test graph, the single transfer `(u := 2, v := 0)` of
amount 1 prints as `"0" to "2": 1.0` — participant `0` (the payer, field `v`)
first. -/
theorem c9_solution_string_witness :
    solution_string gTest (some [(Edge.mk 2 0, 1)]) =
      .ok "\"0\" to \"2\": 1.0\n" := by
  have h := (c9_solution_string_payer_first gTest [(Edge.mk 2 0, 1)]).2.2 (by decide)
  rw [h]
  rfl

/-- C10: on the graph with zero participants, `is_solvable` is false and both
naive-partitioning methods return `Some` of the empty edge map (the empty
partitioning settles vacuously), while each of the six other methods returns
`None`, at every fuel. -/
theorem c10_empty_graph_results (f : Nat) :
    is_solvable emptyGraph = false ∧
    solve_with f emptyGraph .PartitioningStarExpand = some (some []) ∧
    solve_with f emptyGraph .PartitioningGreedySatisfaction = some (some []) ∧
    solve_with f emptyGraph .ApproxStarExpand = some none ∧
    solve_with f emptyGraph .ApproxGreedySatisfaction = some none ∧
    solve_with f emptyGraph .BranchingPartitionStarExpand = some none ∧
    solve_with f emptyGraph .BranchingPartitionGreedySatisfaction = some none ∧
    solve_with f emptyGraph .DPStarExpand = some none ∧
    solve_with f emptyGraph .DPGreedySatisfaction = some none :=
  ⟨rfl, rfl, rfl, rfl, rfl, rfl, rfl, rfl, rfl⟩

end Payback
